/-
Verification of deflatebench (deflatebench.py) against its
natural-language specification.

The Python source is shallowly embedded: times are rationals, sizes are
naturals, dynamic Python values that matter (the str/int comparison in
the grand-total loop) are modelled by an explicit sum type, and the
driver's side effects are modelled as an event trace with an oracle
supplying every subprocess outcome.
-/
import Mathlib

namespace Deflatebench

/-! ### trimworst  (deflatebench.py lines 330-335)

```python
def trimworst(results):
    results.sort()
    if cfgRuns['trimworst'] == 0:
        return results
    return results[:-cfgRuns['trimworst']]
```

`results.sort()` sorts ascending (stable; on rationals stability is
irrelevant).  `results[:-t]` for `t > 0` is `take (length - t)` with
Python's clamping, which coincides with truncated subtraction. -/

def pysort (results : List ℚ) : List ℚ :=
  results.insertionSort (· ≤ ·)

def trimworst (trim : ℕ) (results : List ℚ) : List ℚ :=
  let sorted := pysort results
  if trim = 0 then sorted
  else sorted.take (sorted.length - trim)

/-! ### Python `min` / `max` / `sum` on lists

`min(xs)` and `max(xs)` raise ValueError on an empty list; we model them
as `Option`-valued folds. `sum(xs)` is a total fold. -/

def pymin : List ℚ → Option ℚ
  | [] => none
  | x :: xs => some (xs.foldl min x)

def pymax : List ℚ → Option ℚ
  | [] => none
  | x :: xs => some (xs.foldl max x)

def pysum (xs : List ℚ) : ℚ := xs.foldl (· + ·) 0

/-! ### parse_timefile, perf branch  (deflatebench.py lines 250-258)

```python
if cfgConfig['use_perf']:
    with open(filen) as f:
        content = f.readlines()
    for line in content:
        if line[-13:-1] == 'seconds user':
            return float(line[:-13])
    return 0.0
```

A file is a list of lines (as `readlines` yields them, normally with a
trailing newline).  `line[-13:-1]` and `line[:-13]` are Python slices;
their index clamping for short strings coincides with truncated
subtraction on `ℕ`.  `float(...)` is abstracted as a parameter
`pyfloat`, since only the control flow is at stake. -/

def secondsUserTag : List Char := String.toList "seconds user"

/-- Python `line[-13:-1]`. -/
def lineTag (line : List Char) : List Char :=
  (line.take (line.length - 1)).drop (line.length - 13)

/-- Python `line[:-13]`. -/
def lineNumField (line : List Char) : List Char :=
  line.take (line.length - 13)

def parse_timefile (pyfloat : List Char → ℚ) : List (List Char) → ℚ
  | [] => 0
  | line :: rest =>
    if lineTag line = secondsUserTag then pyfloat (lineNumField line)
    else parse_timefile pyfloat rest

/-! ### Measurements and the per-level statistics
(deflatebench.py lines 337-421, `printreport`)

A run's record `[compsize, comptime, decomptime]` (line 523). -/

structure Measurement where
  rsize : ℕ
  rcompt : ℚ
  rdecompt : ℚ
deriving DecidableEq

/-- One step of the compressed-size consistency scan (lines 371-378):

```python
if not compsize is None and compsize != rsize:
    print(f"Warning: size changed between runs. ...")
else:
    compsize = rsize
```

State is (current `compsize`, number of warnings printed so far). -/
def sizeStep : Option ℕ × ℕ → ℕ → Option ℕ × ℕ
  | (compsize, warns), rsize =>
    match compsize with
    | some c => if c ≠ rsize then (some c, warns + 1) else (some rsize, warns)
    | none => (some rsize, warns)

def sizeScan (sizes : List ℕ) : Option ℕ × ℕ :=
  sizes.foldl sizeStep (none, 0)

/-- The quantities `printreport` computes for one level (lines 363-421).
`compsize` is the size printed in the table row; `lastsize` is the loop
variable `rsize` after the last iteration, used for `comppct` and the
grand totals; `warnings` counts size-mismatch warnings. -/
structure LevelStats where
  compsize : Option ℕ
  warnings : ℕ
  lastsize : ℕ
  origsize : ℕ
  comppct : ℚ
  mincomptime : ℚ
  maxcomptime : ℚ
  avgcomptime : ℚ
  mindecomptime : ℚ
  maxdecomptime : ℚ
  avgdecomptime : ℚ
  ltotcomptime : ℚ
  ltotdecomptime : ℚ
deriving DecidableEq

/-- `comptimes = trimworst(rawcomptimes)` (line 381). -/
def comptimesOf (trim : ℕ) (ms : List Measurement) : List ℚ :=
  trimworst trim (ms.map (·.rcompt))

/-- `decomptimes = trimworst(rawdecomptimes)` (line 382). -/
def decomptimesOf (trim : ℕ) (ms : List Measurement) : List ℚ :=
  trimworst trim (ms.map (·.rdecompt))

/-- Per-level computation of `printreport` (lines 363-397).  Returns
`none` when Python would raise: `min`/`max` of an empty trimmed list
(ValueError), which also covers an empty measurement list.
`numresults = runs - trimworst` is taken from the configuration
(line 345), not from the list length. -/
def levelStats (runs trim origsize : ℕ) (ms : List Measurement) :
    Option LevelStats :=
  let numresults := runs - trim
  let comptimes := comptimesOf trim ms
  let decomptimes := decomptimesOf trim ms
  let scan := sizeScan (ms.map (·.rsize))
  match pymin comptimes, pymax comptimes, pymin decomptimes,
      pymax decomptimes, ms.getLast? with
  | some minc, some maxc, some mind, some maxd, some last =>
    some
      { compsize := scan.1
        warnings := scan.2
        lastsize := last.rsize
        origsize := origsize
        comppct := (last.rsize * 100 : ℕ) / (origsize : ℚ)
        mincomptime := minc
        maxcomptime := maxc
        avgcomptime := pysum comptimes / (numresults : ℚ)
        mindecomptime := mind
        maxdecomptime := maxd
        avgdecomptime := pysum decomptimes / (numresults : ℚ)
        ltotcomptime := pysum comptimes
        ltotdecomptime := pysum decomptimes }
  | _, _, _, _, _ => none

/-! ### Grand totals and the dynamic `level != 0` comparison
(deflatebench.py lines 363, 399-410, 423-448)

The loop variable is a *string*: `for level in map(str, range(...))`.
Line 405 compares it with the integer `0`.  Python `==`/`!=` across
`str` and `int` is type-heterogeneous and never holds, which we model
with an explicit dynamic value type. -/

inductive PyVal where
  | int : ℤ → PyVal
  | str : String → PyVal
deriving DecidableEq

/-- Python `==` restricted to `int` and `str` operands (no custom
`__eq__`): values of different types are never equal. -/
def pyEq : PyVal → PyVal → Bool
  | .int a, .int b => a = b
  | .str a, .str b => a = b
  | _, _ => false

structure Totals where
  totsize : ℕ
  totorigsize : ℕ
  totcomppct : ℚ
  totcomptime : ℚ
  totdecomptime : ℚ
  totsize2 : ℕ
  totorigsize2 : ℕ
  totcomppct2 : ℚ
  totcomptime2 : ℚ
  totdecomptime2 : ℚ
deriving DecidableEq

def Totals.zero : Totals := ⟨0, 0, 0, 0, 0, 0, 0, 0, 0, 0⟩

/-- Accumulation of one level into the grand totals (lines 399-410).
`level` is the integer behind the string loop variable; the guard is
the literal translation of `if level != 0:` with `level` a string. -/
def accTotals (level : ℕ) (st : LevelStats) (t : Totals) : Totals :=
  let t1 : Totals :=
    { t with
      totsize := t.totsize + st.lastsize
      totorigsize := t.totorigsize + st.origsize
      totcomppct := t.totcomppct + st.comppct
      totcomptime := t.totcomptime + st.ltotcomptime
      totdecomptime := t.totdecomptime + st.ltotdecomptime }
  if pyEq (PyVal.str (toString level)) (PyVal.int 0) then t1
  else
    { t1 with
      totsize2 := t.totsize2 + st.lastsize
      totorigsize2 := t.totorigsize2 + st.origsize
      totcomppct2 := t.totcomppct2 + st.comppct
      totcomptime2 := t.totcomptime2 + st.ltotcomptime
      totdecomptime2 := t.totdecomptime2 + st.ltotdecomptime }

/-- The levels of the report: `range(minlevel, maxlevel+1)`. -/
def levelRange (minlevel maxlevel : ℕ) : List ℕ :=
  List.range' minlevel (maxlevel + 1 - minlevel)

/-- The grand-total accumulation over the whole report (the level loop
of `printreport`).  `origsizeOf level` is `tempfiles[level]['origsize']`,
`results level` is `results[level]`.  `none` models the abort inside a
level's statistics. -/
def printreportTotals (runs trim minlevel maxlevel : ℕ)
    (origsizeOf : ℕ → ℕ) (results : ℕ → List Measurement) : Option Totals :=
  (levelRange minlevel maxlevel).foldl
    (fun acc level =>
      match acc with
      | none => none
      | some t =>
        match levelStats runs trim (origsizeOf level) (results level) with
        | none => none
        | some st => some (accTotals level st t))
    (some Totals.zero)

/-- The `avg2` figures printed when `minlevel == 0` (lines 427-429,
439-442): the second totals divided by `(numlevels-1)` resp.
`(numlevels-1)*numresults`. -/
def avg2Figures (runs trim minlevel maxlevel : ℕ) (t : Totals) : ℚ × ℚ × ℚ :=
  let numresults := runs - trim
  let numlevels := (levelRange minlevel maxlevel).length
  ( t.totcomppct2 / ((numlevels - 1 : ℕ) : ℚ)
  , t.totcomptime2 / (((numlevels - 1) * numresults : ℕ) : ℚ)
  , t.totdecomptime2 / (((numlevels - 1) * numresults : ℕ) : ℚ) )

/-! ### The driver  (deflatebench.py lines 213-227, 264-328, 454-533)

The environment (subprocess exit codes, produced sizes and times, hash
comparisons) is an oracle indexed by (run, level).  Side effects are an
event trace.  `runcommand` (lines 213-227) calls `sys.exit` when the
subprocess returns non-zero and `stoponfail` is set; every call made by
`runtest` uses the default `stoponfail=1`.  We model the non-Windows
platform (the timing path the spec describes); `cputweak` is modelled
as the pure trace events `tweakOn`/`tweakOff`, as in the default
configuration it runs no commands (all `Tuning` flags are `False`). -/

/-- Environment outcome of one `runtest(tempfiles, level)` invocation. -/
structure RunOutcome where
  syncExit : ℤ
  compExit : ℤ
  decompExit : ℤ
  gunzipExit : ℤ
  compsize : ℕ
  comptime : ℚ
  decomptime : ℚ
  toolHashOk : Bool
  gzHashOk : Bool
deriving DecidableEq

/-- No subprocess invoked by this `runtest` exits non-zero. -/
def RunOutcome.noFail (o : RunOutcome) : Prop :=
  o.syncExit = 0 ∧ o.compExit = 0 ∧ o.decompExit = 0 ∧ o.gunzipExit = 0

instance (o : RunOutcome) : Decidable o.noFail := by
  unfold RunOutcome.noFail; infer_instance

abbrev Oracle := ℕ → ℕ → RunOutcome

/-- What a run returns: `compsize, comptime, decomptime, hashfail`
(line 328). -/
structure TestResult where
  compsize : ℕ
  comptime : ℚ
  decomptime : ℚ
  hashfail : ℕ
deriving DecidableEq

/-- `runtest` (lines 264-328): sync, compress, optionally decompress
and verify, optionally cross-validate with gunzip.  `.error r` models
`sys.exit` raised by `runcommand` on a non-zero return value `r`
(lines 225-226).  `hashfail` starts at 0 and is set to 1 by either
digest mismatch (lines 303-305, 315-317). -/
def runtest (skipdecomp skipverify : Bool) (o : RunOutcome) :
    Except ℤ TestResult :=
  if o.syncExit ≠ 0 then .error o.syncExit
  else if o.compExit ≠ 0 then .error o.compExit
  -- line 291: `if not cfgConfig['skipdecomp'] or not cfgConfig['skipverify']:`
  else if (!skipdecomp || !skipverify) = true ∧ o.decompExit ≠ 0 then
    .error o.decompExit
  -- line 310: `if not cfgConfig['skipverify']:`
  else if skipverify = false ∧ o.gunzipExit ≠ 0 then .error o.gunzipExit
  else
    .ok { compsize := o.compsize
          comptime := o.comptime
          decomptime :=
            if (!skipdecomp || !skipverify) then o.decomptime else 0
          hashfail :=
            if ((!skipdecomp || !skipverify) && !skipverify && !o.toolHashOk
                || !skipverify && !o.gzHashOk) then 1 else 0 }

/-- Observable driver actions, in trace order. -/
inductive Event where
  | tweakOn
  | tweakOff
  | report
  | crcError (run level : ℕ)
  | fatalExit (retval : ℤ)
deriving DecidableEq

/-- Driver state through the run loop.  `calls` logs each `runtest`
invocation as (run, level, skipverify flag at the call). -/
structure RunState where
  results : ℕ → List Measurement
  skipverify : Bool
  events : List Event
  calls : List (ℕ × ℕ × Bool)
  aborted : Option ℤ

/-- One `runtest` invocation inside the loop body (lines 520-523):
print a crc error if `hashfail != 0`, then append
`[compsize, comptime, decomptime]` to `results[level]`.  A `sys.exit`
inside `runtest` aborts everything after it. -/
def doLevel (oracle : Oracle) (skipdecomp : Bool) (run level : ℕ)
    (st : RunState) : RunState :=
  match st.aborted with
  | some _ => st
  | none =>
    let call := (run, level, st.skipverify)
    match runtest skipdecomp st.skipverify (oracle run level) with
    | .error r =>
      { st with
        events := st.events ++ [Event.fatalExit r]
        calls := st.calls ++ [call]
        aborted := some r }
    | .ok tr =>
      { st with
        results := fun l =>
          if l = level then
            st.results l ++ [⟨tr.compsize, tr.comptime, tr.decomptime⟩]
          else st.results l
        events := st.events ++
          (if tr.hashfail ≠ 0 then [Event.crcError run level] else [])
        calls := st.calls ++ [call] }

/-- One outer iteration of the run loop (lines 514-523): for
`run != 1`, `cfgConfig['skipverify'] = True` is executed first and the
mutation persists. -/
def doRun (oracle : Oracle) (skipdecomp : Bool) (levels : List ℕ)
    (run : ℕ) (st : RunState) : RunState :=
  let st1 := if run ≠ 1 then { st with skipverify := true } else st
  levels.foldl (fun s level => doLevel oracle skipdecomp run level s) st1

/-- Driver state right after `cputweak(True)` and the `results`
initialisation (lines 505-511). -/
def initState (skipverify0 : Bool) : RunState :=
  { results := fun _ => []
    skipverify := skipverify0
    events := [Event.tweakOn]
    calls := []
    aborted := none }

/-- The run loop of `benchmain` (lines 505-523), starting right after
`cputweak(True)`: runs `1..runs`, levels ascending. -/
def runLoop (oracle : Oracle) (skipdecomp : Bool) (runs : ℕ)
    (levels : List ℕ) (skipverify0 : Bool) : RunState :=
  (List.range' 1 runs).foldl
    (fun s run => doRun oracle skipdecomp levels run s)
    (initState skipverify0)

/-- `benchmain` from `cputweak(True)` to `cputweak(False)`
(lines 505-528): when the loop was aborted by `sys.exit`, neither
`printreport` nor `cputweak(False)` runs. -/
def benchSession (oracle : Oracle) (skipdecomp : Bool) (runs : ℕ)
    (minlevel maxlevel : ℕ) (skipverify0 : Bool) : RunState :=
  if (runLoop oracle skipdecomp runs (levelRange minlevel maxlevel)
      skipverify0).aborted = none then
    { runLoop oracle skipdecomp runs (levelRange minlevel maxlevel)
        skipverify0 with
      events := (runLoop oracle skipdecomp runs (levelRange minlevel maxlevel)
        skipverify0).events ++ [Event.report, Event.tweakOff] }
  else
    runLoop oracle skipdecomp runs (levelRange minlevel maxlevel) skipverify0

/-! ### The precondition check in `main`  (deflatebench.py lines 590-598)

```python
if args.runs:
    cfgRuns['runs'] = args.runs
if args.trimworst:
    cfgRuns['trimworst'] = args.trimworst
if cfgRuns['runs'] <= cfgRuns['trimworst']:
    print("Error, parameter 'runs' needs to be higher than parameter 'trimworst'")
    sys.exit(1)
```

`args.runs` / `args.trimworst` are `None` or an `int`; `if args.runs:`
is Python truthiness (not `None` and non-zero).  The validations after
this check (testmode conflicts, testtool checks, lines 600-645) are
abstracted into one flag, since the claim is about this check standing
between the configuration and `benchmain()`. -/

/-- Effective config value after the command-line override. -/
def effParam (cfgval : ℤ) (arg : Option ℤ) : ℤ :=
  match arg with
  | some n => if n ≠ 0 then n else cfgval
  | none => cfgval

inductive MainOutcome where
  | exitRunsTrim
  | exitOther
  | session (runs trim : ℤ)
deriving DecidableEq

def mainChecks (cfgruns cfgtrim : ℤ) (argruns argtrim : Option ℤ)
    (laterChecksPass : Bool) : MainOutcome :=
  if effParam cfgruns argruns ≤ effParam cfgtrim argtrim then
    MainOutcome.exitRunsTrim
  else if laterChecksPass then
    MainOutcome.session (effParam cfgruns argruns) (effParam cfgtrim argtrim)
  else MainOutcome.exitOther

/-! ## Proof development -/

/-! ### Sorting and trimming -/

theorem pysort_perm (xs : List ℚ) : List.Perm (pysort xs) xs :=
  List.perm_insertionSort _ xs

theorem pysort_sorted (xs : List ℚ) : (pysort xs).Sorted (· ≤ ·) :=
  List.sorted_insertionSort _ xs

theorem pysort_length (xs : List ℚ) : (pysort xs).length = xs.length :=
  (pysort_perm xs).length_eq

/-- Two permutations have equal `pysort`s. -/
theorem pysort_congr_perm {xs ys : List ℚ} (h : List.Perm xs ys) :
    pysort xs = pysort ys :=
  List.eq_of_perm_of_sorted
    ((pysort_perm xs).trans (h.trans (pysort_perm ys).symm))
    (pysort_sorted xs) (pysort_sorted ys)

theorem trimworst_congr_perm (t : ℕ) {xs ys : List ℚ} (h : List.Perm xs ys) :
    trimworst t xs = trimworst t ys := by
  unfold trimworst
  rw [pysort_congr_perm h]

theorem trimworst_eq_take (t : ℕ) (xs : List ℚ) :
    trimworst t xs = (pysort xs).take ((pysort xs).length - t) := by
  unfold trimworst
  rcases Nat.eq_zero_or_pos t with h0 | hpos
  · subst h0; simp
  · rw [if_neg (by omega)]

theorem trimworst_length {t : ℕ} {xs : List ℚ} (h : t ≤ xs.length) :
    (trimworst t xs).length = xs.length - t := by
  rw [trimworst_eq_take, List.length_take, pysort_length]
  omega

theorem trimworst_sorted (t : ℕ) (xs : List ℚ) :
    (trimworst t xs).Sorted (· ≤ ·) := by
  rw [trimworst_eq_take]
  exact (pysort_sorted xs).sublist (List.take_sublist _ _)

/-! ### Python min and max -/

theorem pymin_eq_minq (xs : List ℚ) : pymin xs = xs.min? := by
  cases xs <;> rfl

theorem pymax_eq_maxq (xs : List ℚ) : pymax xs = xs.max? := by
  cases xs <;> rfl

theorem pymin_spec {xs : List ℚ} {m : ℚ} (h : pymin xs = some m) :
    m ∈ xs ∧ ∀ x ∈ xs, m ≤ x := by
  rw [pymin_eq_minq] at h
  haveI : Std.Antisymm ((· : ℚ) ≤ ·) := ⟨fun h1 h2 => le_antisymm h1 h2⟩
  have := (List.min?_eq_some_iff (le_refl) min_choice
    (fun a b c => le_min_iff)).mp h
  exact ⟨this.1, fun x hx => this.2 x hx⟩

theorem pymax_spec {xs : List ℚ} {m : ℚ} (h : pymax xs = some m) :
    m ∈ xs ∧ ∀ x ∈ xs, x ≤ m := by
  rw [pymax_eq_maxq] at h
  haveI : Std.Antisymm ((· : ℚ) ≤ ·) := ⟨fun h1 h2 => le_antisymm h1 h2⟩
  have := (List.max?_eq_some_iff (le_refl) max_choice
    (fun a b c => max_le_iff)).mp h
  exact ⟨this.1, fun x hx => this.2 x hx⟩

theorem pymin_isSome {xs : List ℚ} (h : xs ≠ []) : (pymin xs).isSome := by
  cases xs with
  | nil => simp at h
  | cons a t => simp [pymin]

theorem pymax_isSome {xs : List ℚ} (h : xs ≠ []) : (pymax xs).isSome := by
  cases xs with
  | nil => simp at h
  | cons a t => simp [pymax]

/-- Fold invariant: a property preserved by every step holds for the
result of `foldl`. -/
theorem foldl_invariant {α β : Type} (P : α → Prop) (f : α → β → α)
    (l : List β) (init : α) (h0 : P init)
    (hstep : ∀ a b, b ∈ l → P a → P (f a b)) : P (l.foldl f init) := by
  induction l generalizing init with
  | nil => exact h0
  | cons x t ih =>
    exact ih _ (hstep init x (by simp) h0)
      (fun a b hb => hstep a b (by simp [hb]))

/-! ### C6: the trim operation -/

/-- C6: for `0 ≤ T < length X`, `trimworst` returns the `length X - T`
smallest elements of `X` in ascending order: the result is sorted, has
length `length X - T`, is invariant under any permutation of `X`,
`T = 0` performs no trimming (all elements, sorted), and `X` splits
into the retained elements plus dropped elements each of which is `≥`
every retained element. -/
theorem trimworst_trim_spec (T : ℕ) (X : List ℚ) (hT : T < X.length) :
    (trimworst T X).Sorted (· ≤ ·) ∧
    (trimworst T X).length = X.length - T ∧
    (∀ Y : List ℚ, List.Perm X Y → trimworst T X = trimworst T Y) ∧
    (T = 0 → List.Perm (trimworst T X) X) ∧
    List.Perm X (trimworst T X ++ (pysort X).drop ((pysort X).length - T)) ∧
    (∀ a ∈ (pysort X).drop ((pysort X).length - T),
      ∀ b ∈ trimworst T X, b ≤ a) := by
  refine ⟨trimworst_sorted T X, trimworst_length hT.le,
    fun Y h => trimworst_congr_perm T h, ?_, ?_, ?_⟩
  · rintro rfl
    have : trimworst 0 X = pysort X := by unfold trimworst; simp
    rw [this]
    exact pysort_perm X
  · rw [trimworst_eq_take]
    rw [List.take_append_drop]
    exact (pysort_perm X).symm
  · intro a ha b hb
    rw [trimworst_eq_take] at hb
    have hsorted := pysort_sorted X
    have hsplit := List.take_append_drop ((pysort X).length - T) (pysort X)
    rw [List.Sorted, ← hsplit] at hsorted
    exact (List.pairwise_append.mp hsorted).2.2 b hb a ha

/-- Witness for C6 at `T = 1`, `X = [3, 1, 2]`. -/
theorem trimworst_trim_spec_witness :
    (1 : ℕ) < ([3, 1, 2] : List ℚ).length ∧
    (trimworst 1 [3, 1, 2]).Sorted (· ≤ ·) ∧
    (trimworst 1 [3, 1, 2]).length = 2 :=
  ⟨by decide, (trimworst_trim_spec 1 [3, 1, 2] (by decide)).1,
    (trimworst_trim_spec 1 [3, 1, 2] (by decide)).2.1⟩

/-! ### C10 and C7: the per-level aggregation -/

theorem comptimesOf_length {runs trim : ℕ} {ms : List Measurement}
    (h1 : trim ≤ runs) (h2 : ms.length = runs) :
    (comptimesOf trim ms).length = runs - trim := by
  unfold comptimesOf
  rw [trimworst_length (by simp [h2]; omega)]
  simp [h2]

theorem decomptimesOf_length {runs trim : ℕ} {ms : List Measurement}
    (h1 : trim ≤ runs) (h2 : ms.length = runs) :
    (decomptimesOf trim ms).length = runs - trim := by
  unfold decomptimesOf
  rw [trimworst_length (by simp [h2]; omega)]
  simp [h2]

/-- C10: under the enforced precondition `runs > trimworst` and one
measurement per run, every trimmed list handed to `min`, `max` and
`sum` has `runs - trimworst ≥ 1` elements, so the `min`/`max`
empty-list error branch is never hit and the per-level statistics are
computed. -/
theorem trimmed_lists_nonempty (runs trim origsize : ℕ)
    (ms : List Measurement) (h1 : trim < runs) (h2 : ms.length = runs) :
    (comptimesOf trim ms).length = runs - trim ∧
    (decomptimesOf trim ms).length = runs - trim ∧
    1 ≤ runs - trim ∧
    (pymin (comptimesOf trim ms)).isSome ∧
    (pymax (comptimesOf trim ms)).isSome ∧
    (pymin (decomptimesOf trim ms)).isSome ∧
    (pymax (decomptimesOf trim ms)).isSome ∧
    (levelStats runs trim origsize ms).isSome := by
  have hlc := comptimesOf_length h1.le h2
  have hld := decomptimesOf_length h1.le h2
  have hne1 : comptimesOf trim ms ≠ [] :=
    List.ne_nil_of_length_pos (by omega)
  have hne2 : decomptimesOf trim ms ≠ [] :=
    List.ne_nil_of_length_pos (by omega)
  have hms : ms ≠ [] := by
    intro h; rw [h] at h2; simp at h2; omega
  refine ⟨hlc, hld, by omega, pymin_isSome hne1, pymax_isSome hne1,
    pymin_isSome hne2, pymax_isSome hne2, ?_⟩
  obtain ⟨a, ha⟩ := Option.isSome_iff_exists.mp (pymin_isSome hne1)
  obtain ⟨b, hb⟩ := Option.isSome_iff_exists.mp (pymax_isSome hne1)
  obtain ⟨c, hc⟩ := Option.isSome_iff_exists.mp (pymin_isSome hne2)
  obtain ⟨d, hd⟩ := Option.isSome_iff_exists.mp (pymax_isSome hne2)
  obtain ⟨e, he⟩ := Option.isSome_iff_exists.mp (List.getLast?_isSome.mpr hms)
  simp [levelStats, ha, hb, hc, hd, he]

/-- Witness for C10 at `runs = 2`, `trim = 1`,
`ms = [(100, 5, 6), (100, 4, 7)]`. -/
theorem trimmed_lists_nonempty_witness :
    ((1 : ℕ) < 2 ∧ ([⟨100, 5, 6⟩, ⟨100, 4, 7⟩] : List Measurement).length = 2) ∧
    (levelStats 2 1 1000 [⟨100, 5, 6⟩, ⟨100, 4, 7⟩]).isSome :=
  ⟨⟨by decide, by decide⟩,
    (trimmed_lists_nonempty 2 1 1000 [⟨100, 5, 6⟩, ⟨100, 4, 7⟩]
      (by decide) (by decide)).2.2.2.2.2.2.2⟩

/-- When none of the partial operations fails, `levelStats` yields the
record built from their results. -/
theorem levelStats_eq_some {runs trim origsize : ℕ} {ms : List Measurement}
    {a b c d : ℚ} {e : Measurement}
    (ha : pymin (comptimesOf trim ms) = some a)
    (hb : pymax (comptimesOf trim ms) = some b)
    (hc : pymin (decomptimesOf trim ms) = some c)
    (hd : pymax (decomptimesOf trim ms) = some d)
    (he : ms.getLast? = some e) :
    levelStats runs trim origsize ms = some
      { compsize := (sizeScan (ms.map (·.rsize))).1
        warnings := (sizeScan (ms.map (·.rsize))).2
        lastsize := e.rsize
        origsize := origsize
        comppct := ((e.rsize * 100 : ℕ) : ℚ) / (origsize : ℚ)
        mincomptime := a
        maxcomptime := b
        avgcomptime := pysum (comptimesOf trim ms) / ((runs - trim : ℕ) : ℚ)
        mindecomptime := c
        maxdecomptime := d
        avgdecomptime := pysum (decomptimesOf trim ms) / ((runs - trim : ℕ) : ℚ)
        ltotcomptime := pysum (comptimesOf trim ms)
        ltotdecomptime := pysum (decomptimesOf trim ms) } := by
  simp only [levelStats, ha, hb, hc, hd, he]

/-- C7: with `R` recorded runs and `T < R`, the reported averages are
exactly `sum(trimmed) / (R - T)` (the divisor `numresults` from the
configuration equals the trimmed length), and the reported min and max
are the minimum and maximum of the trimmed values. -/
theorem levelStats_min_avg_max (runs trim origsize : ℕ)
    (ms : List Measurement) (h1 : trim < runs) (h2 : ms.length = runs) :
    ∃ st, levelStats runs trim origsize ms = some st ∧
      (comptimesOf trim ms).length = runs - trim ∧
      (decomptimesOf trim ms).length = runs - trim ∧
      st.avgcomptime = pysum (comptimesOf trim ms) / ((runs - trim : ℕ) : ℚ) ∧
      st.avgdecomptime =
        pysum (decomptimesOf trim ms) / ((runs - trim : ℕ) : ℚ) ∧
      st.mincomptime ∈ comptimesOf trim ms ∧
      (∀ x ∈ comptimesOf trim ms, st.mincomptime ≤ x) ∧
      st.maxcomptime ∈ comptimesOf trim ms ∧
      (∀ x ∈ comptimesOf trim ms, x ≤ st.maxcomptime) ∧
      st.mindecomptime ∈ decomptimesOf trim ms ∧
      (∀ x ∈ decomptimesOf trim ms, st.mindecomptime ≤ x) ∧
      st.maxdecomptime ∈ decomptimesOf trim ms ∧
      (∀ x ∈ decomptimesOf trim ms, x ≤ st.maxdecomptime) := by
  have hlc := comptimesOf_length h1.le h2
  have hld := decomptimesOf_length h1.le h2
  have hne1 : comptimesOf trim ms ≠ [] :=
    List.ne_nil_of_length_pos (by omega)
  have hne2 : decomptimesOf trim ms ≠ [] :=
    List.ne_nil_of_length_pos (by omega)
  have hms : ms ≠ [] := by
    intro h; rw [h] at h2; simp at h2; omega
  obtain ⟨a, ha⟩ := Option.isSome_iff_exists.mp (pymin_isSome hne1)
  obtain ⟨b, hb⟩ := Option.isSome_iff_exists.mp (pymax_isSome hne1)
  obtain ⟨c, hc⟩ := Option.isSome_iff_exists.mp (pymin_isSome hne2)
  obtain ⟨d, hd⟩ := Option.isSome_iff_exists.mp (pymax_isSome hne2)
  obtain ⟨e, he⟩ := Option.isSome_iff_exists.mp (List.getLast?_isSome.mpr hms)
  exact ⟨_, levelStats_eq_some ha hb hc hd he, hlc, hld, rfl, rfl,
    (pymin_spec ha).1, (pymin_spec ha).2, (pymax_spec hb).1,
    (pymax_spec hb).2, (pymin_spec hc).1, (pymin_spec hc).2,
    (pymax_spec hd).1, (pymax_spec hd).2⟩

/-- Witness for C7 at `runs = 2`, `trim = 1`,
`ms = [(100, 5, 6), (100, 4, 7)]`. -/
theorem levelStats_min_avg_max_witness :
    ((1 : ℕ) < 2 ∧ ([⟨100, 5, 6⟩, ⟨100, 4, 7⟩] : List Measurement).length = 2) ∧
    ∃ st, levelStats 2 1 1000 [⟨100, 5, 6⟩, ⟨100, 4, 7⟩] = some st ∧
      st.avgcomptime = pysum (comptimesOf 1 [⟨100, 5, 6⟩, ⟨100, 4, 7⟩]) /
        (((2 - 1 : ℕ) : ℚ)) :=
  ⟨⟨by decide, by decide⟩, by
    obtain ⟨st, hst, -, -, havg, -⟩ :=
      levelStats_min_avg_max 2 1 1000 [⟨100, 5, 6⟩, ⟨100, 4, 7⟩]
        (by decide) (by decide)
    exact ⟨st, hst, havg⟩⟩

/-! ### C5: the perf timing-artifact scan -/

/-- C5: with the perf backend, a timing artifact with no line carrying
the "seconds user" marker parses to exactly 0.0 without an error, and
when such a line exists the numeric field preceding the marker (the
first such line's) is returned. -/
theorem parse_timefile_spec (pyfloat : List Char → ℚ)
    (lines : List (List Char)) :
    ((∀ line ∈ lines, lineTag line ≠ secondsUserTag) →
      parse_timefile pyfloat lines = 0) ∧
    (∀ pre line post, lines = pre ++ line :: post →
      (∀ l ∈ pre, lineTag l ≠ secondsUserTag) →
      lineTag line = secondsUserTag →
      parse_timefile pyfloat lines = pyfloat (lineNumField line)) := by
  constructor
  · intro h
    induction lines with
    | nil => rfl
    | cons x t ih =>
      simp only [parse_timefile, if_neg (h x (by simp))]
      exact ih (fun l hl => h l (by simp [hl]))
  · intro pre line post hsplit hpre htag
    subst hsplit
    induction pre with
    | nil => simp [parse_timefile, htag]
    | cons x t ih =>
      rw [List.cons_append]
      simp only [parse_timefile, if_neg (hpre x (by simp))]
      exact ih (fun l hl => hpre l (by simp [hl]))

/-- Witness for C5: a file with no marker line parses to 0, one with a
marker line parses to the preceding field. -/
theorem parse_timefile_spec_witness :
    ((∀ line ∈ [String.toList "no timing here\n"],
      lineTag line ≠ secondsUserTag) ∧
      parse_timefile (fun _ => 37) [String.toList "no timing here\n"] = 0) ∧
    (lineTag (String.toList " 1.50 seconds user\n") = secondsUserTag ∧
      parse_timefile (fun _ => 37) [String.toList " 1.50 seconds user\n"] = 37) :=
  ⟨⟨by decide,
    (parse_timefile_spec (fun _ => 37) [String.toList "no timing here\n"]).1
      (by decide)⟩,
   ⟨by decide,
    (parse_timefile_spec (fun _ => 37)
        [String.toList " 1.50 seconds user\n"]).2
      [] (String.toList " 1.50 seconds user\n") [] rfl (by simp) (by decide)⟩⟩

/-! ### C2: compressed-size drift handling -/

theorem sizeScan_go (s w : ℕ) (l : List ℕ) :
    l.foldl sizeStep (some s, w) =
      (some s, w + l.countP (fun r => decide (r ≠ s))) := by
  induction l generalizing w with
  | nil => simp
  | cons x t ih =>
    rw [List.foldl_cons]
    by_cases hx : s = x
    · subst hx
      rw [show sizeStep (some s, w) s = (some s, w) from by simp [sizeStep]]
      rw [ih w, List.countP_cons]
      simp
    · rw [show sizeStep (some s, w) x = (some s, w + 1) from by
        simp [sizeStep, hx]]
      rw [ih (w + 1), List.countP_cons]
      have hxs : (decide (x ≠ s)) = true := decide_eq_true (Ne.symm hx)
      rw [hxs]
      simp only [Prod.mk.injEq, true_and, if_true]
      omega

theorem sizeScan_cons (s : ℕ) (rest : List ℕ) :
    sizeScan (s :: rest) = (some s, rest.countP (fun r => decide (r ≠ s))) := by
  unfold sizeScan
  rw [List.foldl_cons]
  rw [show sizeStep (none, 0) s = (some s, 0) from rfl]
  simpa using sizeScan_go s 0 rest

/-- C2, amended: on a size mismatch the aggregation warns and proceeds
without aborting; the *compression ratio* uses the last-seen size, but
the reported compressed size keeps the *first-seen* size (the
`else`-branch at lines 375-378 never replaces an established
`compsize`); with all sizes equal there is no warning. -/
theorem sizeMismatch_amended (runs trim origsize : ℕ)
    (ms : List Measurement) (h1 : trim < runs) (h2 : ms.length = runs) :
    ∃ st, levelStats runs trim origsize ms = some st ∧
      ((∃ a ∈ ms.map (·.rsize), ∃ b ∈ ms.map (·.rsize), a ≠ b) →
        1 ≤ st.warnings) ∧
      ((∀ a ∈ ms.map (·.rsize), ∀ b ∈ ms.map (·.rsize), a = b) →
        st.warnings = 0) ∧
      st.compsize = (ms.map (·.rsize)).head? ∧
      (ms.map (·.rsize)).getLast? = some st.lastsize ∧
      st.comppct = ((st.lastsize * 100 : ℕ) : ℚ) / (origsize : ℚ) := by
  have hlc := comptimesOf_length h1.le h2
  have hld := decomptimesOf_length h1.le h2
  have hne1 : comptimesOf trim ms ≠ [] :=
    List.ne_nil_of_length_pos (by omega)
  have hne2 : decomptimesOf trim ms ≠ [] :=
    List.ne_nil_of_length_pos (by omega)
  have hms : ms ≠ [] := by
    intro h; rw [h] at h2; simp at h2; omega
  obtain ⟨a, ha⟩ := Option.isSome_iff_exists.mp (pymin_isSome hne1)
  obtain ⟨b, hb⟩ := Option.isSome_iff_exists.mp (pymax_isSome hne1)
  obtain ⟨c, hc⟩ := Option.isSome_iff_exists.mp (pymin_isSome hne2)
  obtain ⟨d, hd⟩ := Option.isSome_iff_exists.mp (pymax_isSome hne2)
  obtain ⟨e, he⟩ := Option.isSome_iff_exists.mp (List.getLast?_isSome.mpr hms)
  have hsne : ms.map (·.rsize) ≠ [] := by
    intro h
    exact hms (List.map_eq_nil_iff.mp h)
  obtain ⟨s, rest, hs⟩ := List.exists_cons_of_ne_nil hsne
  refine ⟨_, levelStats_eq_some ha hb hc hd he, ?_, ?_, ?_, ?_, rfl⟩
  · rintro ⟨x, hxmem, y, hymem, hxy⟩
    show 1 ≤ (sizeScan (ms.map (·.rsize))).2
    rw [hs, sizeScan_cons]
    rw [hs] at hxmem hymem
    have hzex : ∃ z ∈ rest, decide (z ≠ s) = true := by
      by_cases hxs : x = s
      · have hys : y ≠ s := fun h => hxy (hxs.trans h.symm)
        rcases List.mem_cons.mp hymem with hy | hy
        · exact absurd hy hys
        · exact ⟨y, hy, decide_eq_true hys⟩
      · rcases List.mem_cons.mp hxmem with hx | hx
        · exact absurd hx hxs
        · exact ⟨x, hx, decide_eq_true hxs⟩
    have := List.countP_pos_iff.mpr hzex
    omega
  · intro hall
    show (sizeScan (ms.map (·.rsize))).2 = 0
    rw [hs, sizeScan_cons]
    simp only
    rw [List.countP_eq_zero]
    intro z hz
    have hzmem : z ∈ ms.map (·.rsize) := by rw [hs]; exact List.mem_cons_of_mem _ hz
    have hsmem : s ∈ ms.map (·.rsize) := by rw [hs]; exact List.mem_cons_self _ _
    simp [hall z hzmem s hsmem]
  · show (sizeScan (ms.map (·.rsize))).1 = (ms.map (·.rsize)).head?
    rw [hs, sizeScan_cons]
    rfl
  · show (ms.map (·.rsize)).getLast? = some e.rsize
    rw [List.getLast?_map, he]
    rfl

/-- C2 counterexample: measurement sizes 10 then 20.  A warning is
emitted and the level proceeds, but the reported compressed size is
the first-seen 10, not the last-seen 20 — refuting the claim that the
last-seen size is used for the reported compressed size. -/
theorem sizeMismatch_counterexample :
    ((levelStats 2 0 100 [⟨10, 1, 1⟩, ⟨20, 2, 2⟩]).map
      (fun st => (st.compsize, st.lastsize, st.warnings)))
      = some (some 10, 20, 1) ∧ (10 : ℕ) ≠ 20 := by decide

/-- Witness for C2 (amended) at the same mismatching input. -/
theorem sizeMismatch_amended_witness :
    ((0 : ℕ) < 2 ∧ ([⟨10, 1, 1⟩, ⟨20, 2, 2⟩] : List Measurement).length = 2) ∧
    ∃ st, levelStats 2 0 100 [⟨10, 1, 1⟩, ⟨20, 2, 2⟩] = some st ∧
      1 ≤ st.warnings :=
  ⟨⟨by decide, by decide⟩, by
    obtain ⟨st, hst, hwarn, -⟩ :=
      sizeMismatch_amended 2 0 100 [⟨10, 1, 1⟩, ⟨20, 2, 2⟩]
        (by decide) (by decide)
    exact ⟨st, hst, hwarn (by decide)⟩⟩

/-! ### C1: the grand totals and the `level != 0` guard -/

/-- The guard `if level != 0:` (line 405) compares the *string* loop
variable with the integer 0, so it always succeeds: `accTotals` always
adds into the second total set as well. -/
theorem accTotals_always_adds (level : ℕ) (st : LevelStats) (t : Totals) :
    accTotals level st t =
      { totsize := t.totsize + st.lastsize
        totorigsize := t.totorigsize + st.origsize
        totcomppct := t.totcomppct + st.comppct
        totcomptime := t.totcomptime + st.ltotcomptime
        totdecomptime := t.totdecomptime + st.ltotdecomptime
        totsize2 := t.totsize2 + st.lastsize
        totorigsize2 := t.totorigsize2 + st.origsize
        totcomppct2 := t.totcomppct2 + st.comppct
        totcomptime2 := t.totcomptime2 + st.ltotcomptime
        totdecomptime2 := t.totdecomptime2 + st.ltotdecomptime } := rfl

/-- Consequently the second total set always equals the first: level 0
is never excluded, for any configuration and any data. -/
theorem totals2_eq_totals {runs trim minlevel maxlevel : ℕ} {osz : ℕ → ℕ}
    {res : ℕ → List Measurement} {t : Totals}
    (h : printreportTotals runs trim minlevel maxlevel osz res = some t) :
    t.totcomppct2 = t.totcomppct ∧ t.totcomptime2 = t.totcomptime ∧
    t.totdecomptime2 = t.totdecomptime ∧ t.totsize2 = t.totsize ∧
    t.totorigsize2 = t.totorigsize := by
  unfold printreportTotals at h
  have key := foldl_invariant
    (fun acc : Option Totals => ∀ u, acc = some u →
      (u.totcomppct2 = u.totcomppct ∧ u.totcomptime2 = u.totcomptime ∧
       u.totdecomptime2 = u.totdecomptime ∧ u.totsize2 = u.totsize ∧
       u.totorigsize2 = u.totorigsize))
    (fun acc level =>
      match acc with
      | none => none
      | some t =>
        match levelStats runs trim (osz level) (res level) with
        | none => none
        | some st => some (accTotals level st t))
    (levelRange minlevel maxlevel) (some Totals.zero) ?_ ?_
  · exact key t h
  · intro u hu
    rw [Option.some_inj] at hu
    subst hu
    simp [Totals.zero]
  · rintro acc level - hP
    cases acc with
    | none => simp
    | some u =>
      cases hst : levelStats runs trim (osz level) (res level) with
      | none => simp [hst]
      | some st =>
        rintro v hv
        simp only [hst] at hv
        obtain ⟨h1, h2, h3, h4, h5⟩ := hP u rfl
        rw [Option.some_inj] at hv
        subst hv
        rw [accTotals_always_adds]
        exact ⟨by simp [h1], by simp [h2], by simp [h3],
          by simp [h4], by simp [h5]⟩

/-- C1, on the code: at `minlevel = 0` with a nonzero level-0 row
(compress time 2, ratio 50%), the second totals equal the first totals
instead of differing by the level-0 contribution: the level-0
exclusion never happens, because `level != 0` compares a string with
an integer. -/
theorem level0_not_excluded :
    ((printreportTotals 1 0 0 1 (fun _ => 100)
        (fun l => if l = 0 then [⟨50, 2, 3⟩] else [⟨40, 1, 1⟩])).map
      (fun t => (t.totcomptime, t.totcomptime2, t.totcomppct, t.totcomppct2)))
      = some (3, 3, 90, 90) ∧
    ((3 : ℚ) - 2 ≠ 3 ∧ (90 : ℚ) - 50 ≠ 90) := by
  constructor
  · norm_num [printreportTotals, levelRange, List.range', levelStats,
      comptimesOf, decomptimesOf, trimworst, pysort, List.insertionSort,
      List.orderedInsert, pymin, pymax, pysum, sizeScan, sizeStep,
      accTotals, pyEq, Totals.zero]
  · norm_num

/-! ### Driver lemmas: runtest -/

/-- When every subprocess exits 0, `runtest` returns the measurement
tuple; the hash-failure flag is set exactly when verification is
active and a digest mismatched. -/
theorem runtest_eq_of_noFail {sd sv : Bool} {o : RunOutcome}
    (h : o.noFail) :
    runtest sd sv o = .ok
      { compsize := o.compsize
        comptime := o.comptime
        decomptime := if (!sd || !sv) then o.decomptime else 0
        hashfail :=
          if sv = false ∧ (o.toolHashOk = false ∨ o.gzHashOk = false)
          then 1 else 0 } := by
  obtain ⟨h1, h2, h3, h4⟩ := h
  obtain ⟨se, ce, de, ge, cs, ct, dt, th, gh⟩ := o
  simp only at h1 h2 h3 h4
  subst h1; subst h2; subst h3; subst h4
  unfold runtest
  cases sv <;> cases sd <;> cases th <;> cases gh <;> simp

/-- `runtest` exits the session only with the non-zero return value of
a failed subprocess. -/
theorem runtest_error_cases {sd sv : Bool} {o : RunOutcome} {r : ℤ}
    (h : runtest sd sv o = .error r) : r ≠ 0 ∧ ¬ o.noFail := by
  unfold runtest at h
  by_cases h1 : o.syncExit ≠ 0
  · rw [if_pos h1, Except.error.injEq] at h
    subst h
    exact ⟨h1, fun hn => h1 hn.1⟩
  · rw [if_neg h1] at h
    by_cases h2 : o.compExit ≠ 0
    · rw [if_pos h2, Except.error.injEq] at h
      subst h
      exact ⟨h2, fun hn => h2 hn.2.1⟩
    · rw [if_neg h2] at h
      by_cases h3 : (!sd || !sv) = true ∧ o.decompExit ≠ 0
      · rw [if_pos h3, Except.error.injEq] at h
        subst h
        exact ⟨h3.2, fun hn => h3.2 hn.2.2.1⟩
      · rw [if_neg h3] at h
        by_cases h4 : sv = false ∧ o.gunzipExit ≠ 0
        · rw [if_pos h4, Except.error.injEq] at h
          subst h
          exact ⟨h4.2, fun hn => h4.2 hn.2.2.2⟩
        · rw [if_neg h4] at h
          cases h

/-! ### Driver lemmas: doLevel -/

theorem doLevel_of_aborted {oracle : Oracle} {sd : Bool} {run level : ℕ}
    {st : RunState} {r : ℤ} (h : st.aborted = some r) :
    doLevel oracle sd run level st = st := by
  unfold doLevel
  rw [h]

theorem doLevel_of_ok {oracle : Oracle} {sd : Bool} {run level : ℕ}
    {st : RunState} {tr : TestResult} (hab : st.aborted = none)
    (htr : runtest sd st.skipverify (oracle run level) = .ok tr) :
    doLevel oracle sd run level st =
      { st with
        results := fun l =>
          if l = level then
            st.results l ++ [⟨tr.compsize, tr.comptime, tr.decomptime⟩]
          else st.results l
        events := st.events ++
          (if tr.hashfail ≠ 0 then [Event.crcError run level] else [])
        calls := st.calls ++ [(run, level, st.skipverify)] } := by
  unfold doLevel
  rw [hab, htr]

theorem doLevel_of_error {oracle : Oracle} {sd : Bool} {run level : ℕ}
    {st : RunState} {r : ℤ} (hab : st.aborted = none)
    (htr : runtest sd st.skipverify (oracle run level) = .error r) :
    doLevel oracle sd run level st =
      { st with
        events := st.events ++ [Event.fatalExit r]
        calls := st.calls ++ [(run, level, st.skipverify)]
        aborted := some r } := by
  unfold doLevel
  rw [hab, htr]

theorem doLevel_skipverify (oracle : Oracle) (sd : Bool) (run level : ℕ)
    (st : RunState) :
    (doLevel oracle sd run level st).skipverify = st.skipverify := by
  unfold doLevel
  split
  · rfl
  · split <;> rfl

theorem doLevel_events_grow (oracle : Oracle) (sd : Bool)
    (run level : ℕ) (st : RunState) :
    st.events <+: (doLevel oracle sd run level st).events := by
  unfold doLevel
  split
  · exact List.prefix_rfl
  · split <;> exact List.prefix_append _ _

/-- `doLevel` emits only fatal-exit or crc-error events. -/
theorem doLevel_events_new (oracle : Oracle) (sd : Bool) (run level : ℕ)
    (st : RunState) (e : Event)
    (he : e ∈ (doLevel oracle sd run level st).events) :
    e ∈ st.events ∨ (∃ r, e = Event.fatalExit r) ∨
      (∃ a b, e = Event.crcError a b) := by
  unfold doLevel at he
  split at he
  · exact .inl he
  · split at he
    · simp only [List.mem_append, List.mem_singleton] at he
      rcases he with he | he
      · exact .inl he
      · exact .inr (.inl ⟨_, he⟩)
    · simp only [List.mem_append] at he
      rcases he with he | he
      · exact .inl he
      · split at he
        · simp only [List.mem_singleton] at he
          exact .inr (.inr ⟨_, _, he⟩)
        · simp at he

theorem doLevel_calls_subset (oracle : Oracle) (sd : Bool)
    (run level : ℕ) (st : RunState) (c : ℕ × ℕ × Bool)
    (hc : c ∈ (doLevel oracle sd run level st).calls) :
    c ∈ st.calls ∨ c = (run, level, st.skipverify) := by
  unfold doLevel at hc
  split at hc
  · exact .inl hc
  · split at hc <;>
    · simp only [List.mem_append, List.mem_singleton] at hc
      rcases hc with hc | hc
      · exact .inl hc
      · exact .inr hc

/-- The abort value, once set, is the non-zero return value of a
failed subprocess. -/
theorem doLevel_aborted_nonzero (oracle : Oracle) (sd : Bool)
    (run level : ℕ) (st : RunState)
    (hst : ∀ r, st.aborted = some r → r ≠ 0) :
    ∀ r, (doLevel oracle sd run level st).aborted = some r → r ≠ 0 := by
  intro r hr
  cases hab : st.aborted with
  | some r0 =>
    rw [doLevel_of_aborted hab] at hr
    exact hst r (hab ▸ hr)
  | none =>
    cases htr : runtest sd st.skipverify (oracle run level) with
    | error r1 =>
      rw [doLevel_of_error hab htr] at hr
      simp only [Option.some_inj] at hr
      subst hr
      exact (runtest_error_cases htr).1
    | ok tr =>
      rw [doLevel_of_ok hab htr] at hr
      simp only at hr
      rw [hab] at hr
      cases hr

theorem doLevel_aborted_none {oracle : Oracle} {sd : Bool}
    {run level : ℕ} {st : RunState} (hab : st.aborted = none)
    (hok : (oracle run level).noFail) :
    (doLevel oracle sd run level st).aborted = none := by
  rw [doLevel_of_ok hab (runtest_eq_of_noFail hok)]
  exact hab

theorem doLevel_results_length {oracle : Oracle} {sd : Bool}
    {run level : ℕ} {st : RunState} (hab : st.aborted = none)
    (hok : (oracle run level).noFail) (l : ℕ) :
    ((doLevel oracle sd run level st).results l).length
      = (st.results l).length + (if l = level then 1 else 0) := by
  rw [doLevel_of_ok hab (runtest_eq_of_noFail hok)]
  by_cases hl : l = level <;> simp [hl]

/-- A digest mismatch under active verification puts the crc-error
print in the trace. -/
theorem doLevel_crc_mem {oracle : Oracle} {sd : Bool} {run lvl : ℕ}
    {st : RunState} (hab : st.aborted = none)
    (hsv : st.skipverify = false) (hok : (oracle run lvl).noFail)
    (hmm : (oracle run lvl).toolHashOk = false ∨
      (oracle run lvl).gzHashOk = false) :
    Event.crcError run lvl ∈ (doLevel oracle sd run lvl st).events := by
  rw [doLevel_of_ok hab (runtest_eq_of_noFail hok)]
  rcases hmm with h | h <;> simp [hsv, h]

/-! ### Driver lemmas: the level fold inside one run -/

theorem innerFold_skipverify (oracle : Oracle) (sd : Bool) (run : ℕ)
    (ls : List ℕ) (s : RunState) :
    (ls.foldl (fun s lvl => doLevel oracle sd run lvl s) s).skipverify
      = s.skipverify := by
  induction ls generalizing s with
  | nil => rfl
  | cons x t ih => rw [List.foldl_cons, ih, doLevel_skipverify]

theorem innerFold_events_grow (oracle : Oracle) (sd : Bool) (run : ℕ)
    (ls : List ℕ) (s : RunState) :
    s.events <+: (ls.foldl (fun s lvl => doLevel oracle sd run lvl s) s).events := by
  induction ls generalizing s with
  | nil => exact List.prefix_rfl
  | cons x t ih =>
    rw [List.foldl_cons]
    exact (doLevel_events_grow oracle sd run x s).trans (ih _)

theorem innerFold_events_new (oracle : Oracle) (sd : Bool) (run : ℕ)
    (ls : List ℕ) (s : RunState) (e : Event)
    (he : e ∈ (ls.foldl (fun s lvl => doLevel oracle sd run lvl s) s).events) :
    e ∈ s.events ∨ (∃ r, e = Event.fatalExit r) ∨
      (∃ a b, e = Event.crcError a b) := by
  induction ls generalizing s with
  | nil => exact .inl he
  | cons x t ih =>
    rw [List.foldl_cons] at he
    rcases ih _ he with h | h | h
    · exact doLevel_events_new oracle sd run x s e h
    · exact .inr (.inl h)
    · exact .inr (.inr h)

theorem innerFold_calls (oracle : Oracle) (sd : Bool) (run : ℕ)
    (ls : List ℕ) (s : RunState) (c : ℕ × ℕ × Bool)
    (hc : c ∈ (ls.foldl (fun s lvl => doLevel oracle sd run lvl s) s).calls) :
    c ∈ s.calls ∨ (c.1 = run ∧ c.2.2 = s.skipverify) := by
  induction ls generalizing s with
  | nil => exact .inl hc
  | cons x t ih =>
    rw [List.foldl_cons] at hc
    rcases ih _ hc with h | h
    · rcases doLevel_calls_subset oracle sd run x s c h with h2 | h2
      · exact .inl h2
      · subst h2
        exact .inr ⟨rfl, rfl⟩
    · rw [doLevel_skipverify] at h
      exact .inr h

theorem innerFold_aborted_nonzero (oracle : Oracle) (sd : Bool) (run : ℕ)
    (ls : List ℕ) (s : RunState) (hs : ∀ r, s.aborted = some r → r ≠ 0) :
    ∀ r, (ls.foldl (fun s lvl => doLevel oracle sd run lvl s) s).aborted
      = some r → r ≠ 0 := by
  induction ls generalizing s with
  | nil => exact hs
  | cons x t ih =>
    rw [List.foldl_cons]
    exact ih _ (doLevel_aborted_nonzero oracle sd run x s hs)

theorem innerFold_ok (oracle : Oracle) (sd : Bool) (run : ℕ)
    (hok : ∀ lvl, (oracle run lvl).noFail) (ls : List ℕ) (s : RunState)
    (hab : s.aborted = none) :
    (ls.foldl (fun s lvl => doLevel oracle sd run lvl s) s).aborted = none ∧
    ∀ l, ((ls.foldl (fun s lvl => doLevel oracle sd run lvl s) s).results l).length
      = (s.results l).length + ls.count l := by
  induction ls generalizing s with
  | nil => exact ⟨hab, fun l => by simp⟩
  | cons x t ih =>
    rw [List.foldl_cons]
    have hab2 := @doLevel_aborted_none oracle sd run x s hab (hok x)
    obtain ⟨ha, hr⟩ := ih _ hab2
    refine ⟨ha, fun l => ?_⟩
    rw [hr l, doLevel_results_length hab (hok x) l, List.count_cons]
    by_cases hl : l = x <;> simp [hl] <;> omega

theorem innerFold_crc (oracle : Oracle) (sd : Bool) (run : ℕ)
    (hok : ∀ lvl, (oracle run lvl).noFail) (ls : List ℕ) (s : RunState)
    (hab : s.aborted = none) (hsv : s.skipverify = false) :
    ∀ l ∈ ls, ((oracle run l).toolHashOk = false ∨
        (oracle run l).gzHashOk = false) →
      Event.crcError run l ∈
        (ls.foldl (fun s lvl => doLevel oracle sd run lvl s) s).events := by
  induction ls generalizing s with
  | nil => intro l hl; cases hl
  | cons x t ih =>
    intro l hl hmm
    rw [List.foldl_cons]
    rcases List.mem_cons.mp hl with hx | hx
    · subst hx
      exact (innerFold_events_grow oracle sd run t _).subset
        (doLevel_crc_mem hab hsv (hok l) hmm)
    · exact ih _ (doLevel_aborted_none hab (hok x))
        ((doLevel_skipverify oracle sd run x s).trans hsv) l hx hmm

/-! ### Driver lemmas: one outer run iteration -/

/-- The `skipverify := True` mutation at the top of a run iteration. -/
theorem doRunInit_fields (run : ℕ) (st : RunState) :
    ((if run ≠ 1 then { st with skipverify := true } else st) : RunState).events
        = st.events ∧
    ((if run ≠ 1 then { st with skipverify := true } else st) : RunState).calls
        = st.calls ∧
    ((if run ≠ 1 then { st with skipverify := true } else st) : RunState).results
        = st.results ∧
    ((if run ≠ 1 then { st with skipverify := true } else st) : RunState).aborted
        = st.aborted ∧
    ((if run ≠ 1 then { st with skipverify := true } else st) : RunState).skipverify
        = (if run = 1 then st.skipverify else true) := by
  by_cases h : run = 1 <;> simp [h]

theorem doRun_events_grow (oracle : Oracle) (sd : Bool) (levels : List ℕ)
    (run : ℕ) (st : RunState) :
    st.events <+: (doRun oracle sd levels run st).events := by
  have h := innerFold_events_grow oracle sd run levels
    (if run ≠ 1 then { st with skipverify := true } else st)
  rw [(doRunInit_fields run st).1] at h
  exact h

theorem doRun_events_new (oracle : Oracle) (sd : Bool) (levels : List ℕ)
    (run : ℕ) (st : RunState) (e : Event)
    (he : e ∈ (doRun oracle sd levels run st).events) :
    e ∈ st.events ∨ (∃ r, e = Event.fatalExit r) ∨
      (∃ a b, e = Event.crcError a b) := by
  unfold doRun at he
  rcases innerFold_events_new oracle sd run levels _ e he with h | h | h
  · rw [(doRunInit_fields run st).1] at h
    exact .inl h
  · exact .inr (.inl h)
  · exact .inr (.inr h)

theorem doRun_calls (oracle : Oracle) (sd : Bool) (levels : List ℕ)
    (run : ℕ) (st : RunState) (c : ℕ × ℕ × Bool)
    (hc : c ∈ (doRun oracle sd levels run st).calls) :
    c ∈ st.calls ∨
      (c.1 = run ∧ c.2.2 = (if run = 1 then st.skipverify else true)) := by
  unfold doRun at hc
  rcases innerFold_calls oracle sd run levels _ c hc with h | h
  · rw [(doRunInit_fields run st).2.1] at h
    exact .inl h
  · rw [(doRunInit_fields run st).2.2.2.2] at h
    exact .inr h

theorem doRun_aborted_nonzero (oracle : Oracle) (sd : Bool)
    (levels : List ℕ) (run : ℕ) (st : RunState)
    (hs : ∀ r, st.aborted = some r → r ≠ 0) :
    ∀ r, (doRun oracle sd levels run st).aborted = some r → r ≠ 0 := by
  unfold doRun
  refine innerFold_aborted_nonzero oracle sd run levels _ ?_
  rw [(doRunInit_fields run st).2.2.2.1]
  exact hs

theorem doRun_ok (oracle : Oracle) (sd : Bool) (levels : List ℕ)
    (run : ℕ) (st : RunState) (hok : ∀ lvl, (oracle run lvl).noFail)
    (hab : st.aborted = none) :
    (doRun oracle sd levels run st).aborted = none ∧
    ∀ l, ((doRun oracle sd levels run st).results l).length
      = (st.results l).length + levels.count l := by
  unfold doRun
  have h := innerFold_ok oracle sd run hok levels _
    ((doRunInit_fields run st).2.2.2.1.trans hab)
  refine ⟨h.1, fun l => ?_⟩
  rw [h.2 l, (doRunInit_fields run st).2.2.1]

/-- During run 1 the skipverify flag still holds its configured value;
with verification active, every digest mismatch is printed. -/
theorem doRun_crc_run1 (oracle : Oracle) (sd : Bool) (levels : List ℕ)
    (st : RunState) (hok : ∀ lvl, (oracle 1 lvl).noFail)
    (hab : st.aborted = none) (hsv : st.skipverify = false) :
    ∀ l ∈ levels, ((oracle 1 l).toolHashOk = false ∨
        (oracle 1 l).gzHashOk = false) →
      Event.crcError 1 l ∈ (doRun oracle sd levels 1 st).events := by
  unfold doRun
  rw [if_neg (by simp)]
  exact innerFold_crc oracle sd 1 hok levels st hab hsv

/-! ### Driver lemmas: the fold over runs -/

theorem outerFold_events_grow (oracle : Oracle) (sd : Bool)
    (levels : List ℕ) (rs : List ℕ) (s : RunState) :
    s.events <+: (rs.foldl (fun s run => doRun oracle sd levels run s) s).events := by
  induction rs generalizing s with
  | nil => exact List.prefix_rfl
  | cons x t ih =>
    rw [List.foldl_cons]
    exact (doRun_events_grow oracle sd levels x s).trans (ih _)

theorem outerFold_events_new (oracle : Oracle) (sd : Bool)
    (levels : List ℕ) (rs : List ℕ) (s : RunState) (e : Event)
    (he : e ∈ (rs.foldl (fun s run => doRun oracle sd levels run s) s).events) :
    e ∈ s.events ∨ (∃ r, e = Event.fatalExit r) ∨
      (∃ a b, e = Event.crcError a b) := by
  induction rs generalizing s with
  | nil => exact .inl he
  | cons x t ih =>
    rw [List.foldl_cons] at he
    rcases ih _ he with h | h | h
    · exact doRun_events_new oracle sd levels x s e h
    · exact .inr (.inl h)
    · exact .inr (.inr h)

theorem outerFold_calls_flag (oracle : Oracle) (sd : Bool)
    (levels : List ℕ) (rs : List ℕ) (s : RunState)
    (hs : ∀ c ∈ s.calls, c.1 ≠ 1 → c.2.2 = true) :
    ∀ c ∈ (rs.foldl (fun s run => doRun oracle sd levels run s) s).calls,
      c.1 ≠ 1 → c.2.2 = true := by
  induction rs generalizing s with
  | nil => exact hs
  | cons x t ih =>
    rw [List.foldl_cons]
    refine ih _ ?_
    intro c hc hne
    rcases doRun_calls oracle sd levels x s c hc with h | h
    · exact hs c h hne
    · rcases h with ⟨h1, h2⟩
      rw [h2, if_neg (h1 ▸ hne)]

theorem outerFold_aborted_nonzero (oracle : Oracle) (sd : Bool)
    (levels : List ℕ) (rs : List ℕ) (s : RunState)
    (hs : ∀ r, s.aborted = some r → r ≠ 0) :
    ∀ r, (rs.foldl (fun s run => doRun oracle sd levels run s) s).aborted
      = some r → r ≠ 0 := by
  induction rs generalizing s with
  | nil => exact hs
  | cons x t ih =>
    rw [List.foldl_cons]
    exact ih _ (doRun_aborted_nonzero oracle sd levels x s hs)

theorem outerFold_ok (oracle : Oracle) (sd : Bool) (levels : List ℕ)
    (hok : ∀ run lvl, (oracle run lvl).noFail) (rs : List ℕ)
    (s : RunState) (hab : s.aborted = none) :
    (rs.foldl (fun s run => doRun oracle sd levels run s) s).aborted = none ∧
    ∀ l, ((rs.foldl (fun s run => doRun oracle sd levels run s) s).results l).length
      = (s.results l).length + rs.length * levels.count l := by
  induction rs generalizing s with
  | nil => exact ⟨hab, fun l => by simp⟩
  | cons x t ih =>
    rw [List.foldl_cons]
    have hstep := doRun_ok oracle sd levels x s (hok x) hab
    obtain ⟨ha, hr⟩ := ih _ hstep.1
    refine ⟨ha, fun l => ?_⟩
    rw [hr l, hstep.2 l, List.length_cons, Nat.succ_mul]
    omega

/-! ### Driver lemmas: runLoop and benchSession -/

theorem runLoop_initState (oracle : Oracle) (sd : Bool) (runs : ℕ)
    (levels : List ℕ) (sv0 : Bool) :
    runLoop oracle sd runs levels sv0 =
      (List.range' 1 runs).foldl (fun s run => doRun oracle sd levels run s)
        (initState sv0) := rfl

theorem runLoop_events_tweakOn (oracle : Oracle) (sd : Bool) (runs : ℕ)
    (levels : List ℕ) (sv0 : Bool) :
    ∃ tail, (runLoop oracle sd runs levels sv0).events
      = Event.tweakOn :: tail := by
  rw [runLoop_initState]
  obtain ⟨tail, htail⟩ := outerFold_events_grow oracle sd levels
    (List.range' 1 runs) (initState sv0)
  exact ⟨tail, htail.symm⟩

theorem runLoop_no_off_no_report (oracle : Oracle) (sd : Bool) (runs : ℕ)
    (levels : List ℕ) (sv0 : Bool) :
    Event.tweakOff ∉ (runLoop oracle sd runs levels sv0).events ∧
    Event.report ∉ (runLoop oracle sd runs levels sv0).events := by
  rw [runLoop_initState]
  constructor <;>
  · intro hmem
    rcases outerFold_events_new oracle sd levels (List.range' 1 runs)
      (initState sv0) _ hmem with h | h | h
    · simp [initState] at h
    · rcases h with ⟨r, hr⟩; cases hr
    · rcases h with ⟨a, b, hab⟩; cases hab

theorem runLoop_aborted_nonzero (oracle : Oracle) (sd : Bool) (runs : ℕ)
    (levels : List ℕ) (sv0 : Bool) :
    ∀ r, (runLoop oracle sd runs levels sv0).aborted = some r → r ≠ 0 := by
  rw [runLoop_initState]
  exact outerFold_aborted_nonzero oracle sd levels _ (initState sv0)
    (fun r hr => by cases hr)

theorem runLoop_ok (oracle : Oracle) (sd : Bool) (runs : ℕ)
    (levels : List ℕ) (sv0 : Bool)
    (hok : ∀ run lvl, (oracle run lvl).noFail) :
    (runLoop oracle sd runs levels sv0).aborted = none ∧
    ∀ l, ((runLoop oracle sd runs levels sv0).results l).length
      = runs * levels.count l := by
  rw [runLoop_initState]
  have h := outerFold_ok oracle sd levels hok (List.range' 1 runs)
    (initState sv0) rfl
  refine ⟨h.1, fun l => ?_⟩
  rw [h.2 l]
  simp [initState]

theorem runLoop_calls_flag (oracle : Oracle) (sd : Bool) (runs : ℕ)
    (levels : List ℕ) (sv0 : Bool) :
    ∀ c ∈ (runLoop oracle sd runs levels sv0).calls,
      c.1 ≠ 1 → c.2.2 = true := by
  rw [runLoop_initState]
  exact outerFold_calls_flag oracle sd levels _ (initState sv0)
    (fun c hc => by cases hc)

theorem runLoop_crc (oracle : Oracle) (sd : Bool) (runs : ℕ)
    (levels : List ℕ) (hruns : 1 ≤ runs)
    (hok : ∀ run lvl, (oracle run lvl).noFail) :
    ∀ l ∈ levels, ((oracle 1 l).toolHashOk = false ∨
        (oracle 1 l).gzHashOk = false) →
      Event.crcError 1 l ∈ (runLoop oracle sd runs levels false).events := by
  intro l hl hmm
  rw [runLoop_initState]
  obtain ⟨n, rfl⟩ : ∃ n, runs = n + 1 := ⟨runs - 1, by omega⟩
  rw [List.range'_succ, List.foldl_cons]
  refine (outerFold_events_grow oracle sd levels _ _).subset ?_
  exact doRun_crc_run1 oracle sd levels _ (hok 1) rfl rfl l hl hmm

theorem benchSession_of_aborted {oracle : Oracle} {sd : Bool}
    {runs minlevel maxlevel : ℕ} {sv0 : Bool} {r : ℤ}
    (h : (runLoop oracle sd runs (levelRange minlevel maxlevel) sv0).aborted
      = some r) :
    benchSession oracle sd runs minlevel maxlevel sv0
      = runLoop oracle sd runs (levelRange minlevel maxlevel) sv0 := by
  unfold benchSession
  rw [if_neg (by simp [h])]

theorem benchSession_of_completed {oracle : Oracle} {sd : Bool}
    {runs minlevel maxlevel : ℕ} {sv0 : Bool}
    (h : (runLoop oracle sd runs (levelRange minlevel maxlevel) sv0).aborted
      = none) :
    benchSession oracle sd runs minlevel maxlevel sv0
      = { runLoop oracle sd runs (levelRange minlevel maxlevel) sv0 with
          events := (runLoop oracle sd runs (levelRange minlevel maxlevel)
            sv0).events ++ [Event.report, Event.tweakOff] } := by
  unfold benchSession
  rw [if_pos h]

theorem benchSession_aborted_eq (oracle : Oracle) (sd : Bool)
    (runs minlevel maxlevel : ℕ) (sv0 : Bool) :
    (benchSession oracle sd runs minlevel maxlevel sv0).aborted
      = (runLoop oracle sd runs (levelRange minlevel maxlevel) sv0).aborted := by
  unfold benchSession
  split <;> rfl

theorem benchSession_results_eq (oracle : Oracle) (sd : Bool)
    (runs minlevel maxlevel : ℕ) (sv0 : Bool) :
    (benchSession oracle sd runs minlevel maxlevel sv0).results
      = (runLoop oracle sd runs (levelRange minlevel maxlevel) sv0).results := by
  unfold benchSession
  split <;> rfl

theorem benchSession_calls_eq (oracle : Oracle) (sd : Bool)
    (runs minlevel maxlevel : ℕ) (sv0 : Bool) :
    (benchSession oracle sd runs minlevel maxlevel sv0).calls
      = (runLoop oracle sd runs (levelRange minlevel maxlevel) sv0).calls := by
  unfold benchSession
  split <;> rfl

theorem benchSession_completed_events {oracle : Oracle} {sd : Bool}
    {runs minlevel maxlevel : ℕ} {sv0 : Bool}
    (h : (runLoop oracle sd runs (levelRange minlevel maxlevel) sv0).aborted
      = none) :
    (benchSession oracle sd runs minlevel maxlevel sv0).events
      = (runLoop oracle sd runs (levelRange minlevel maxlevel) sv0).events
        ++ [Event.report, Event.tweakOff] := by
  rw [benchSession_of_completed h]

theorem benchSession_aborted_events {oracle : Oracle} {sd : Bool}
    {runs minlevel maxlevel : ℕ} {sv0 : Bool} {r : ℤ}
    (h : (runLoop oracle sd runs (levelRange minlevel maxlevel) sv0).aborted
      = some r) :
    (benchSession oracle sd runs minlevel maxlevel sv0).events
      = (runLoop oracle sd runs (levelRange minlevel maxlevel) sv0).events := by
  rw [benchSession_of_aborted h]

/-! ### C3: bracketing of the system-tweak calls -/

/-- C3 counterexample: a compressor that exits with return value 1 on
run 1 aborts the session via `sys.exit`; the trace holds the
low-variance-mode entry but no restore — the session terminates with
the tweak still enabled. -/
theorem cputweak_counterexample :
    Event.tweakOn ∈ (benchSession
      (fun _ _ => ⟨0, 1, 0, 0, 100, 1, 1, true, true⟩)
      false 1 0 0 false).events ∧
    Event.tweakOff ∉ (benchSession
      (fun _ _ => ⟨0, 1, 0, 0, 100, 1, 1, true, true⟩)
      false 1 0 0 false).events ∧
    (benchSession (fun _ _ => ⟨0, 1, 0, 0, 100, 1, 1, true, true⟩)
      false 1 0 0 false).aborted = some 1 := by decide

/-- C3, amended: `cputweak(True)` precedes the loop and
`cputweak(False)` follows it on the path where every subprocess
succeeds, but on the fatal-subprocess path the process exits without
restoring normal mode. -/
theorem cputweak_bracketing (oracle : Oracle) (sd : Bool)
    (runs minl maxl : ℕ) (sv0 : Bool) :
    ((benchSession oracle sd runs minl maxl sv0).aborted = none →
      ∃ mid, (benchSession oracle sd runs minl maxl sv0).events
        = (Event.tweakOn :: mid) ++ [Event.report, Event.tweakOff]) ∧
    (∀ r, (benchSession oracle sd runs minl maxl sv0).aborted = some r →
      r ≠ 0 ∧
      Event.tweakOn ∈ (benchSession oracle sd runs minl maxl sv0).events ∧
      Event.tweakOff ∉ (benchSession oracle sd runs minl maxl sv0).events) := by
  obtain ⟨tail, htail⟩ :=
    runLoop_events_tweakOn oracle sd runs (levelRange minl maxl) sv0
  rw [benchSession_aborted_eq]
  cases hab : (runLoop oracle sd runs (levelRange minl maxl) sv0).aborted with
  | none =>
    constructor
    · intro h2
      rw [benchSession_completed_events hab, htail]
      exact ⟨tail, rfl⟩
    · intro r hr
      cases hr
  | some r0 =>
    constructor
    · intro hnone
      cases hnone
    · intro r hr
      rw [Option.some_inj] at hr
      rw [benchSession_aborted_events hab, htail]
      refine ⟨hr ▸ runLoop_aborted_nonzero oracle sd runs _ sv0 r0 hab,
        by simp, ?_⟩
      rw [← htail]
      exact (runLoop_no_off_no_report oracle sd runs _ sv0).1

/-- Witness for C3 (amended), completed path, at an all-zero oracle. -/
theorem cputweak_bracketing_witness :
    (benchSession (fun _ _ => ⟨0, 0, 0, 0, 100, 1, 1, true, true⟩)
      false 1 0 0 false).aborted = none ∧
    ∃ mid, (benchSession (fun _ _ => ⟨0, 0, 0, 0, 100, 1, 1, true, true⟩)
      false 1 0 0 false).events
        = (Event.tweakOn :: mid) ++ [Event.report, Event.tweakOff] :=
  ⟨by decide,
    (cputweak_bracketing (fun _ _ => ⟨0, 0, 0, 0, 100, 1, 1, true, true⟩)
      false 1 0 0 false).1 (by decide)⟩

/-! ### C4: verification disabled after run 1 -/

/-- C4: every `runtest` invocation in a run with index ≠ 1 sees the
skip-verify flag forced to `True`, regardless of its configured value;
a call with verification active can only belong to run 1. -/
theorem skipverify_disabled_after_run1 (oracle : Oracle) (sd : Bool)
    (runs minl maxl : ℕ) (sv0 : Bool) :
    ∀ c ∈ (benchSession oracle sd runs minl maxl sv0).calls,
      (c.1 ≠ 1 → c.2.2 = true) ∧ (c.2.2 = false → c.1 = 1) := by
  have hcalls : (benchSession oracle sd runs minl maxl sv0).calls
      = (runLoop oracle sd runs (levelRange minl maxl) sv0).calls := by
    unfold benchSession
    split <;> rfl
  rw [hcalls]
  intro c hc
  have h := runLoop_calls_flag oracle sd runs (levelRange minl maxl) sv0 c hc
  refine ⟨h, fun hfalse => ?_⟩
  by_contra hne
  rw [h hne] at hfalse
  cases hfalse

/-- Witness for C4: with 2 runs and `skipverify` configured off, the
run-2 invocation carries the flag forced to `True`. -/
theorem skipverify_disabled_after_run1_witness :
    ((2, (0 : ℕ), true) ∈ (benchSession
      (fun _ _ => ⟨0, 0, 0, 0, 100, 1, 1, true, true⟩)
      false 2 0 0 false).calls) ∧
    ((2, (0 : ℕ), true) : ℕ × ℕ × Bool).2.2 = true :=
  ⟨by decide,
    (skipverify_disabled_after_run1
      (fun _ _ => ⟨0, 0, 0, 0, 100, 1, 1, true, true⟩)
      false 2 0 0 false (2, 0, true) (by decide)).1 (by decide)⟩

/-! ### C9: digest mismatches are recorded, only subprocess failures
are fatal -/

/-- C9: a digest mismatch never aborts: the level runner returns its
tuple with the hash-failure flag set, the driver prints the crc error,
every measurement is appended, and the session completes; conversely
an abort carries the non-zero exit code of some subprocess and the
session ends without reporting. -/
theorem hashfail_nonfatal (oracle : Oracle) (sd : Bool)
    (runs minl maxl : ℕ) (sv0 : Bool) :
    (∀ (sv : Bool) (o : RunOutcome), o.noFail → sv = false →
      (o.toolHashOk = false ∨ o.gzHashOk = false) →
      ∃ tr, runtest sd sv o = .ok tr ∧ tr.hashfail = 1) ∧
    ((∀ r l, (oracle r l).noFail) →
      (benchSession oracle sd runs minl maxl sv0).aborted = none ∧
      Event.report ∈ (benchSession oracle sd runs minl maxl sv0).events ∧
      (∀ l ∈ levelRange minl maxl,
        ((benchSession oracle sd runs minl maxl sv0).results l).length
          = runs) ∧
      (sv0 = false → 1 ≤ runs → ∀ l ∈ levelRange minl maxl,
        ((oracle 1 l).toolHashOk = false ∨ (oracle 1 l).gzHashOk = false) →
        Event.crcError 1 l ∈
          (benchSession oracle sd runs minl maxl sv0).events)) ∧
    (∀ r, (benchSession oracle sd runs minl maxl sv0).aborted = some r →
      r ≠ 0 ∧
      Event.report ∉ (benchSession oracle sd runs minl maxl sv0).events ∧
      ∃ run lvl, ¬ (oracle run lvl).noFail) := by
  refine ⟨?_, ?_, ?_⟩
  · rintro sv o hok rfl hmm
    exact ⟨_, runtest_eq_of_noFail hok, if_pos ⟨rfl, hmm⟩⟩
  · intro hok
    have hloop := runLoop_ok oracle sd runs (levelRange minl maxl) sv0 hok
    have hnodup : (levelRange minl maxl).Nodup := by
      unfold levelRange
      exact List.nodup_range' _ _
    refine ⟨?_, ?_, fun l hl => ?_, ?_⟩
    · rw [benchSession_aborted_eq]
      exact hloop.1
    · rw [benchSession_completed_events hloop.1]
      simp
    · rw [benchSession_results_eq, hloop.2 l,
        List.count_eq_one_of_mem hnodup hl, Nat.mul_one]
    · rintro rfl hruns l hl hmm
      rw [benchSession_completed_events hloop.1]
      simp only [List.mem_append]
      exact .inl (runLoop_crc oracle sd runs _ hruns hok l hl hmm)
  · intro r hr
    rw [benchSession_aborted_eq] at hr
    refine ⟨runLoop_aborted_nonzero oracle sd runs _ sv0 r hr, ?_, ?_⟩
    · rw [benchSession_aborted_events hr]
      exact (runLoop_no_off_no_report oracle sd runs _ sv0).2
    · by_contra hno
      push_neg at hno
      have hn := (runLoop_ok oracle sd runs (levelRange minl maxl) sv0 hno).1
      rw [hn] at hr
      cases hr

/-- Witness for C9: an all-zero-exit oracle whose tool-side digest
mismatches on every run: the session completes, the mismatch is
printed, and the measurement is recorded. -/
theorem hashfail_nonfatal_witness :
    (benchSession (fun _ _ => ⟨0, 0, 0, 0, 100, 1, 1, false, true⟩)
      false 1 0 0 false).aborted = none ∧
    Event.crcError 1 0 ∈ (benchSession
      (fun _ _ => ⟨0, 0, 0, 0, 100, 1, 1, false, true⟩)
      false 1 0 0 false).events ∧
    ((benchSession (fun _ _ => ⟨0, 0, 0, 0, 100, 1, 1, false, true⟩)
      false 1 0 0 false).results 0).length = 1 := by
  have h := (hashfail_nonfatal
    (fun _ _ => ⟨0, 0, 0, 0, 100, 1, 1, false, true⟩)
    false 1 0 0 false).2.1 (fun _ _ => ⟨rfl, rfl, rfl, rfl⟩)
  exact ⟨h.1, h.2.2.2 rfl (by decide) 0 (by decide) (Or.inl rfl),
    h.2.2.1 0 (by decide)⟩

/-! ### C8: the runs/trimworst precondition check in main -/

/-- C8: with effective `runs ≤ trimworst` the program exits fatally at
the precondition check, before any benchmark session; with
`runs > trimworst` the check passes, and the session starts once the
remaining validations pass. -/
theorem runsTrim_check (cfgruns cfgtrim : ℤ) (argruns argtrim : Option ℤ)
    (later : Bool) :
    (effParam cfgruns argruns ≤ effParam cfgtrim argtrim →
      mainChecks cfgruns cfgtrim argruns argtrim later
        = MainOutcome.exitRunsTrim) ∧
    (effParam cfgtrim argtrim < effParam cfgruns argruns →
      mainChecks cfgruns cfgtrim argruns argtrim later
        ≠ MainOutcome.exitRunsTrim ∧
      (later = true →
        mainChecks cfgruns cfgtrim argruns argtrim later
          = MainOutcome.session (effParam cfgruns argruns)
              (effParam cfgtrim argtrim))) := by
  unfold mainChecks
  constructor
  · intro h
    rw [if_pos h]
  · intro h
    rw [if_neg (by omega)]
    constructor
    · cases later <;> simp
    · rintro rfl
      simp

/-- Witness for C8: `runs = 10, trimworst = 15` exits at the check;
`runs = 15, trimworst = 5` reaches the session. -/
theorem runsTrim_check_witness :
    (effParam 10 none ≤ effParam 15 none ∧
      mainChecks 10 15 none none true = MainOutcome.exitRunsTrim) ∧
    (effParam 5 none < effParam 15 none ∧
      mainChecks 15 5 none none true = MainOutcome.session 15 5) :=
  ⟨⟨by decide, (runsTrim_check 10 15 none none true).1 (by decide)⟩,
   ⟨by decide, ((runsTrim_check 15 5 none none true).2 (by decide)).2 rfl⟩⟩

end Deflatebench
